import Mathlib

/-!
Verification of the MetaMorphic pipeline core: a shallow embedding of the
transformation dispatch engine (`src/transformer.py`, class `Transformer`)
and the multi-step join/concat executor (`src/data_merger.py`, class
`DataMerger`), together with theorems settling the specification claims.

Tables model pandas DataFrames as ordered column labels plus row-major
cells; the registry of named tables models the Python dict `dfs_dict`.
Python exceptions are modelled with `Except`: each raise site gets its own
error constructor carrying the data that appears in the exception message.
-/

/-- A scalar cell value: string, integer, boolean or null (pandas NaN).
Floating point cells are not needed by any claim and are not modelled. -/
inductive Value where
  | s (v : String)
  | i (v : Int)
  | b (v : Bool)
  | null
  deriving DecidableEq, Repr

/-- An in-memory table modelling a pandas DataFrame: ordered column labels
`cols`, and rows as lists of cells positionally aligned with `cols`. -/
structure Table where
  cols : List String
  rows : List (List Value)
  deriving DecidableEq, Repr

/- ## Python `int` / `str` modelling

`Transformer._standardize_id` calls the Python builtins `int` and `str`.
`int(x)` on a string accepts optional surrounding whitespace, an optional
single leading sign, and decimal digits optionally separated by single
underscores placed strictly between digits; `str` on a nonnegative integer
renders the minimal decimal form.  (The builtin additionally accepts
non-ASCII unicode decimal digits; that extension is not modelled — every
input considered in this development is ASCII.) -/

/-- The decimal digit character of `d` (meaningful for `d < 10`). -/
def digitChar (d : Nat) : Char := Char.ofNat (48 + d)

/-- Fuel-driven digit production (the fuel argument only forces structural
recursion; `n + 1` units always suffice since each step divides by ten). -/
def natDigitsAux : Nat → Nat → List Char
  | 0, _ => []
  | fuel + 1, n =>
    if n < 10 then [digitChar n]
    else natDigitsAux fuel (n / 10) ++ [digitChar (n % 10)]

/-- Decimal digits of `n`, most significant first: the digit sequence of
Python `str` applied to the nonnegative integer `n`. -/
def natDigits (n : Nat) : List Char := natDigitsAux (n + 1) n

theorem natDigitsAux_stable : ∀ (n fuel fuel2 : Nat), n < fuel → n < fuel2 →
    natDigitsAux fuel n = natDigitsAux fuel2 n := by
  intro n
  induction n using Nat.strong_induction_on with
  | _ n ih =>
    intro fuel fuel2 hf hf2
    cases fuel with
    | zero => omega
    | succ f =>
      cases fuel2 with
      | zero => omega
      | succ f2 =>
        rw [natDigitsAux, natDigitsAux]
        by_cases h : n < 10
        · rw [if_pos h, if_pos h]
        · rw [if_neg h, if_neg h]
          have hd : n / 10 < n := Nat.div_lt_self (by omega) (by omega)
          rw [ih (n / 10) hd f f2 (by omega) (by omega)]

/-- The recursive unfolding of `natDigits`. -/
theorem natDigits_eq (n : Nat) : natDigits n =
    if n < 10 then [digitChar n] else natDigits (n / 10) ++ [digitChar (n % 10)] := by
  rw [natDigits, natDigitsAux]
  by_cases h : n < 10
  · rw [if_pos h, if_pos h]
  · rw [if_neg h, if_neg h, natDigits]
    have hd : n / 10 < n := Nat.div_lt_self (by omega) (by omega)
    rw [natDigitsAux_stable (n / 10) n (n / 10 + 1) (by omega) (by omega)]

/-- Python `str` on a nonnegative integer. -/
def natRepr (n : Nat) : String := String.mk (natDigits n)

/-- Python `str` on an arbitrary integer. -/
def intRepr (n : Int) : String :=
  if n < 0 then "-" ++ natRepr n.natAbs else natRepr n.natAbs

/-- ASCII decimal digit test. -/
def isAsciiDigit (c : Char) : Bool := 48 ≤ c.toNat && c.toNat ≤ 57

/-- The whitespace characters stripped by Python `int` around a numeral
(ASCII subset). -/
def isPySpace (c : Char) : Bool :=
  c == ' ' || c == '\t' || c == '\n' || c == '\r' || c == '\x0b' || c == '\x0c'

/-- Remove leading and trailing whitespace, as Python `int` does. -/
def stripWs (l : List Char) : List Char :=
  ((l.dropWhile isPySpace).reverse.dropWhile isPySpace).reverse

/-- No two consecutive underscores (Python numeral grouping rule). -/
def noDoubleUS : List Char → Bool
  | c1 :: c2 :: rest => !((c1 == '_') && (c2 == '_')) && noDoubleUS (c2 :: rest)
  | _ => true

/-- A valid Python decimal numeral body after sign removal: nonempty, made
of digits and underscores, beginning and ending with a digit, with no two
consecutive underscores (so every underscore sits between digits). -/
def validUD : List Char → Bool
  | [] => false
  | c :: rest =>
      isAsciiDigit c && (c :: rest).all (fun x => isAsciiDigit x || x == '_')
        && isAsciiDigit ((c :: rest).getLastD 'x') && noDoubleUS (c :: rest)

/-- One step of decimal accumulation; underscores are skipped. -/
def pyDigitStep (a : Nat) (c : Char) : Nat :=
  if c == '_' then a else a * 10 + (c.toNat - 48)

/-- Value of a valid numeral body. -/
def foldVal (l : List Char) : Nat := l.foldl pyDigitStep 0

/-- Python `int` on a sign-free numeral body. -/
def pyIntCore (l : List Char) : Option Nat :=
  if validUD l then some (foldVal l) else none

/-- Python `int` on a string: strip whitespace, handle one optional sign,
then parse the numeral body; `none` models `ValueError`. -/
def pythonInt (s : String) : Option Int :=
  match stripWs s.data with
  | [] => none
  | c :: rest =>
    if c == '+' then (pyIntCore rest).map Int.ofNat
    else if c == '-' then (pyIntCore rest).map (fun n => -(n : Int))
    else (pyIntCore (c :: rest)).map Int.ofNat

/-- Python `s.replace("-", "")`: delete every dash. -/
def stripDashes (s : String) : String :=
  String.mk (s.data.filter (fun c => c != '-'))

/-- Errors raised inside `Transformer`; each constructor corresponds to one
`raise` site and carries the data interpolated into its message. -/
inductive TErr where
  /-- `ValueError(f"Column '{col}' not found.")` -/
  | columnNotFound (c : String)
  /-- `ValueError(f"Columns not found: {missing_columns}")` -/
  | columnsNotFound (cs : List String)
  /-- `ValueError(f"Invalid operator '{operator}'. ...")` -/
  | invalidOperator (op : String)
  /-- `ValueError("Columns list cannot be empty")` /
  `ValueError("Group columns list cannot be empty")` -/
  | emptyColumns
  /-- `ValueError(f"Non-numeric ID encountered: {id_str}")` — note that
  `id_str` has already had its dashes removed at this raise site. -/
  | invalidId (v : String)
  /-- pandas `ValueError` for a `keep` argument other than first/last/False. -/
  | invalidKeep (k : String)
  /-- `AttributeError(f"Transformation method '{name}' not found.")` — the
  message carries the (normalized) name only, not the step index. -/
  | attributeError (name : String)
  /-- Python-level binding failures (`TypeError` etc.) for parameter shapes
  that do not fit the called method; no claim exercises these. -/
  | badParameters
  deriving DecidableEq, Repr

/-- `Transformer._standardize_id`: remove dashes, convert with `int` (the
failure message shows the already-dash-stripped value), render with `str`. -/
def _standardize_id (s : String) : Except TErr String :=
  let t := stripDashes s
  match pythonInt t with
  | some n => .ok (intRepr n)
  | none => .error (.invalidId t)

/-- `astype(str)` on one cell: Python string rendering of the cell.  A
pandas NaN renders as `"nan"`, booleans as `"True"`/`"False"`. -/
def cellToStr : Value → String
  | .s v => v
  | .i v => intRepr v
  | .b true => "True"
  | .b false => "False"
  | .null => "nan"

/- ## Transformer operations (`src/transformer.py`) -/

/-- Index of column `c` in the label list. -/
def colIdx (cols : List String) (c : String) : Option Nat :=
  cols.findIdx? (· == c)

/-- The cell of row `r` under column `c`; rows are kept positionally
aligned with the label list by every operation. -/
def getCell (cols : List String) (r : List Value) (c : String) : Value :=
  match colIdx cols c with
  | some j => r.getD j .null
  | none => .null

/-- `Transformer.select_columns`: keep exactly the listed columns in the
given order; any absent name is collected and reported. -/
def select_columns (t : Table) (columns : List String) : Except TErr Table :=
  let missing := columns.filter (fun c => !t.cols.contains c)
  if missing ≠ [] then .error (.columnsNotFound missing)
  else .ok { cols := columns
             rows := t.rows.map (fun r => columns.map (getCell t.cols r)) }

/-- `Transformer.filter_rows`: keep rows whose cell in `column` is (for
`is_in`) or is not (for `not_in`) a member of `values`. -/
def filter_rows (t : Table) (column : String) (operator : String)
    (values : List Value) : Except TErr Table :=
  if !t.cols.contains column then .error (.columnNotFound column)
  else if operator == "is_in" then
    .ok { t with rows := t.rows.filter (fun r => values.contains (getCell t.cols r column)) }
  else if operator == "not_in" then
    .ok { t with rows := t.rows.filter (fun r => !values.contains (getCell t.cols r column)) }
  else .error (.invalidOperator operator)

/-- Key of a row on the given columns. -/
def dupKey (cols : List String) (columns : List String) (r : List Value) : List Value :=
  columns.map (getCell cols r)

/-- Keep each row unless an earlier row (those whose keys are in `seen`)
had the same key: `drop_duplicates(..., keep="first")`. -/
def dropDupFirst (key : List Value → List Value) (seen : List (List Value)) :
    List (List Value) → List (List Value)
  | [] => []
  | r :: rs =>
    if seen.contains (key r) then dropDupFirst key seen rs
    else r :: dropDupFirst key (key r :: seen) rs

/-- `Transformer.drop_duplicates`: remove duplicate rows judged on the
listed columns, keeping the first or last occurrence. The pandas
`keep=False` form (drop every occurrence) is accepted by the library but
used by no configuration and is not modelled. -/
def drop_duplicates (t : Table) (columns : List String) (keep : String) :
    Except TErr Table :=
  if columns = [] then .error .emptyColumns
  else
    let missing := columns.filter (fun c => !t.cols.contains c)
    if missing ≠ [] then .error (.columnsNotFound missing)
    else if keep == "first" then
      .ok { t with rows := dropDupFirst (dupKey t.cols columns) [] t.rows }
    else if keep == "last" then
      .ok { t with rows := (dropDupFirst (dupKey t.cols columns) [] t.rows.reverse).reverse }
    else .error (.invalidKeep keep)

/-- Standardize the cell at column index `j` of one row (the column is
first rendered with `astype(str)`). -/
def stdCellAt (j : Nat) (r : List Value) : Except TErr (List Value) :=
  match _standardize_id (cellToStr (r.getD j .null)) with
  | .ok d => .ok (r.set j (.s d))
  | .error e => .error e

/-- Standardize every cell of column index `j`, stopping at the first
failing cell as `Series.apply` does. -/
def stdColumn (j : Nat) : List (List Value) → Except TErr (List (List Value))
  | [] => .ok []
  | r :: rs =>
    match stdCellAt j r with
    | .error e => .error e
    | .ok r2 =>
      match stdColumn j rs with
      | .error e => .error e
      | .ok rs2 => .ok (r2 :: rs2)

/-- `Transformer.standardize_id_columns`: process the listed columns in
order; a name absent from the table raises before its column is touched. -/
def standardize_id_columns (t : Table) : List String → Except TErr Table
  | [] => .ok t
  | c :: rest =>
    match colIdx t.cols c with
    | none => .error (.columnNotFound c)
    | some j =>
      match stdColumn j t.rows with
      | .error e => .error e
      | .ok rows2 => standardize_id_columns { t with rows := rows2 } rest

/-- Constructor rank for cells of distinct shapes.  A pandas column is
homogeneous, so ordering across shapes is never exercised by the
configurations considered here; nulls rank last, matching `sort_values`
with its default `na_position="last"`. -/
def vRank : Value → Nat
  | .i _ => 0
  | .b _ => 1
  | .s _ => 2
  | .null => 3

/-- Comparison of two cells. -/
def vCmp : Value → Value → Ordering
  | .i a, .i b => compare a b
  | .s a, .s b => compare a b
  | .b a, .b b => compare a b
  | x, y => compare (vRank x) (vRank y)

/-- Lexicographic comparison of row keys (`sort_values` on several
columns). -/
def lexCmp : List Value → List Value → Ordering
  | [], [] => .eq
  | [], _ :: _ => .lt
  | _ :: _, [] => .gt
  | x :: xs, y :: ys =>
    match vCmp x y with
    | .eq => lexCmp xs ys
    | o => o

/-- Insert `x` after every already-placed row whose key is not greater, so
rows with equal keys keep their original relative order. -/
def insertRowStable (key : List Value → List Value) (x : List Value) :
    List (List Value) → List (List Value)
  | [] => [x]
  | y :: ys =>
    if lexCmp (key y) (key x) ≠ Ordering.gt then y :: insertRowStable key x ys
    else x :: y :: ys

/-- Stable sort of the rows by key: the model of
`sort_values(by=group_columns)`.  (pandas uses numpy introsort, which runs
plain insertion sort — stable — on the small frames exercised here; the
general theorems below depend only on the post-sort order, not on how ties
were broken.) -/
def sortRowsBy (key : List Value → List Value) (rows : List (List Value)) :
    List (List Value) :=
  rows.foldl (fun acc x => insertRowStable key x acc) []

/-- `groupby(...).cumcount() + 1` over the rows in order: each row receives
one plus the number of earlier rows with the same key (`seen` carries the
keys already passed). -/
def cumOrders (key : List Value → List Value) (seen : List (List Value)) :
    List (List Value) → List Nat
  | [] => []
  | r :: rs => (seen.count (key r) + 1) :: cumOrders key (key r :: seen) rs

/-- `df[name] = vals`: replace the column if the label exists, otherwise
append it on the right. -/
def setColumn (t : Table) (name : String) (vals : List Value) : Table :=
  match colIdx t.cols name with
  | some j => { t with rows := t.rows.zipWith (fun r v => r.set j v) vals }
  | none => { cols := t.cols ++ [name]
              rows := t.rows.zipWith (fun r v => r ++ [v]) vals }

/-- `Transformer.add_group_order`: sort by the group columns, then assign
within-group 1-based sequence numbers into `order_column_name`
(`groupby(group_columns, dropna=False).cumcount() + 1`). -/
def add_group_order (t : Table) (group_columns : List String)
    (order_column_name : String) : Except TErr Table :=
  if group_columns = [] then .error .emptyColumns
  else
    match group_columns.filter (fun c => !t.cols.contains c) with
    | m :: ms => .error (.columnsNotFound (m :: ms))
    | [] =>
      .ok (setColumn
        { t with rows := sortRowsBy (fun r => dupKey t.cols group_columns r) t.rows }
        order_column_name
        ((cumOrders (fun r => dupKey t.cols group_columns r) []
            (sortRowsBy (fun r => dupKey t.cols group_columns r) t.rows)).map
          (fun n => Value.i (Int.ofNat n))))

/- ## Transformation dispatch (`Transformer.run_transformations`)

A configuration value as it arrives from the YAML layer: a scalar, a list,
or a mapping of named arguments. -/

/-- A plain Python configuration value. -/
inductive PyVal where
  | str (v : String)
  | int (v : Int)
  | bool (v : Bool)
  | none
  | list (l : List PyVal)
  | dict (m : List (String × PyVal))

/-- `Transformer.normalize_string`, parameterized by the model `f` of
`unicodedata.normalize("NFC", ·)`: applied to a string it normalizes,
applied to anything else (including a list or mapping) it returns its
argument unchanged. -/
def normalize_string (f : String → String) : PyVal → PyVal
  | .str v => .str (f v)
  | v => v

/-- The parameter-normalization pass of `run_transformations`: a list has
its elements passed through `normalize_string`, a mapping has its values
(not its keys) passed through `normalize_string`, and a bare scalar is
passed through directly. -/
def normalizeParams (f : String → String) : PyVal → PyVal
  | .list l => .list (l.map (normalize_string f))
  | .dict m => .dict (m.map (fun kv => (kv.1, normalize_string f kv.2)))
  | p => normalize_string f p

/-- The callable attributes of `Transformer` reachable by the dynamic
`getattr` dispatch of `run_transformations`. -/
inductive TMethod where
  | select_columns
  | filter_rows
  | drop_duplicates
  | standardize_id_columns
  | add_group_order
  | normalize_string
  | _standardize_id
  deriving DecidableEq, Repr

/-- `getattr(self, name, None)` restricted to the method names relevant
here.  The five data operations resolve, and so do the helper methods
`normalize_string` and `_standardize_id` — `getattr` draws from every
attribute of the object, not from a fixed operation table.  (The remaining
attributes — `run_transformations` itself, `__init__`, `logger`, `df` —
also resolve in Python; no claim involves them and they are left out of
the model.) -/
def getattr_method (name : String) : Option TMethod :=
  if name == "select_columns" then some .select_columns
  else if name == "filter_rows" then some .filter_rows
  else if name == "drop_duplicates" then some .drop_duplicates
  else if name == "standardize_id_columns" then some .standardize_id_columns
  else if name == "add_group_order" then some .add_group_order
  else if name == "normalize_string" then some .normalize_string
  else if name == "_standardize_id" then some ._standardize_id
  else Option.none

/-- Decode a configuration list whose members must all be strings. -/
def asStrList (l : List PyVal) : Option (List String) :=
  l.mapM (fun v => match v with | .str s => some s | _ => Option.none)

/-- Decode a scalar configuration value into a cell value; lists and
mappings are unhashable in a pandas `isin` and fail. -/
def pyScalarToValue : PyVal → Option Value
  | .str v => some (.s v)
  | .int v => some (.i v)
  | .bool v => some (.b v)
  | .none => some .null
  | _ => Option.none

/-- Lookup in a configuration mapping. -/
def dictGet (m : List (String × PyVal)) (k : String) : Option PyVal :=
  (m.find? (fun kv => kv.1 == k)).map (fun kv => kv.2)

/-- Execute one resolved method against the current table, binding the
(already normalized) parameter value the way `run_transformations` does: a
list is passed as one positional sequence argument, a mapping as named
arguments, a bare scalar as one positional argument.  Shapes that fit no
signature raise Python-level `TypeError`s, modelled as `badParameters`
(no claim exercises them).  The helper methods `normalize_string` and
`_standardize_id` compute on their argument and leave the table as it is:
their return value is discarded by the dispatch loop. -/
def execMethod (m : TMethod) (p : PyVal) (t : Table) : Except TErr Table :=
  match m with
  | .select_columns =>
    match p with
    | .list l =>
      match asStrList l with
      | some cs => select_columns t cs
      | Option.none => .error .badParameters
    | _ => .error .badParameters
  | .filter_rows =>
    match p with
    | .dict m2 =>
      if m2.all (fun kv => kv.1 == "column" || kv.1 == "operator" || kv.1 == "values") then
        match dictGet m2 "column", dictGet m2 "operator", dictGet m2 "values" with
        | some (.str c), some (.str op), some (.list vs) =>
          match vs.mapM pyScalarToValue with
          | some values => filter_rows t c op values
          | Option.none => .error .badParameters
        | _, _, _ => .error .badParameters
      else .error .badParameters
    | _ => .error .badParameters
  | .drop_duplicates =>
    match p with
    | .list l =>
      match asStrList l with
      | some cs => drop_duplicates t cs "first"
      | Option.none => .error .badParameters
    | .dict m2 =>
      if m2.all (fun kv => kv.1 == "columns" || kv.1 == "keep") then
        match dictGet m2 "columns" with
        | some (.list l) =>
          match asStrList l with
          | some cs =>
            match dictGet m2 "keep" with
            | Option.none => drop_duplicates t cs "first"
            | some (.str k) => drop_duplicates t cs k
            | some _ => .error .badParameters
          | Option.none => .error .badParameters
        | _ => .error .badParameters
      else .error .badParameters
    | _ => .error .badParameters
  | .standardize_id_columns =>
    match p with
    | .list l =>
      match asStrList l with
      | some cs => standardize_id_columns t cs
      | Option.none => .error .badParameters
    | _ => .error .badParameters
  | .add_group_order =>
    match p with
    | .list l =>
      match asStrList l with
      | some cs => add_group_order t cs "order"
      | Option.none => .error .badParameters
    | .dict m2 =>
      if m2.all (fun kv => kv.1 == "group_columns" || kv.1 == "order_column_name") then
        match dictGet m2 "group_columns" with
        | some (.list l) =>
          match asStrList l with
          | some cs =>
            match dictGet m2 "order_column_name" with
            | Option.none => add_group_order t cs "order"
            | some (.str o) => add_group_order t cs o
            | some _ => .error .badParameters
          | Option.none => .error .badParameters
        | _ => .error .badParameters
      else .error .badParameters
    | _ => .error .badParameters
  | .normalize_string =>
    match p with
    | .dict m2 =>
      match m2 with
      | [(k, _)] => if k == "s" then .ok t else .error .badParameters
      | _ => .error .badParameters
    | _ => .ok t
  | ._standardize_id =>
    match p with
    | .str v => (_standardize_id v).map (fun _ => t)
    | .dict m2 =>
      match m2 with
      | [(k, .str v)] =>
        if k == "id_str" then (_standardize_id v).map (fun _ => t)
        else .error .badParameters
      | _ => .error .badParameters
    | _ => .error .badParameters

/-- The inner loop of `run_transformations` over the items of one
transformation mapping: normalize the method name and the parameters,
resolve the name with `getattr` (failure raises an `AttributeError`
carrying the normalized name — and nothing else), then execute. -/
def runItems (f : String → String) (t : Table) :
    List (String × PyVal) → Except TErr Table
  | [] => .ok t
  | (name, params) :: rest =>
    match getattr_method (f name) with
    | Option.none => .error (.attributeError (f name))
    | some m =>
      match execMethod m (normalizeParams f params) t with
      | .error e => .error e
      | .ok t2 => runItems f t2 rest

/-- `Transformer.run_transformations`, parameterized by the NFC model `f`.
Each configuration entry is a mapping (the `isinstance(..., dict)` guard
cannot fire in this typed embedding), processed strictly in order; the
first failure aborts.  An empty configuration returns the table as it is. -/
def run_transformations (f : String → String) (t : Table) :
    List (List (String × PyVal)) → Except TErr Table
  | [] => .ok t
  | step :: rest =>
    match runItems f t step with
    | .error e => .error e
    | .ok t2 => run_transformations f t2 rest

/- ## Join/concat executor (`src/data_merger.py`) -/

/-- The registry of named tables: the Python dict `dfs_dict`.  Keys are
unique; overwriting keeps the key at its position, as a dict does. -/
def Registry := List (String × Table)

/-- `dfs_dict.get(name)`. -/
def lookupReg (d : Registry) (n : String) : Option Table :=
  match d with
  | [] => Option.none
  | kv :: rest => if kv.1 == n then some kv.2 else lookupReg rest n

/-- `dfs_dict[name] = t`: replace in place when the key exists, append
otherwise. -/
def insertReg (d : Registry) (n : String) (t : Table) : Registry :=
  match d with
  | [] => [(n, t)]
  | kv :: rest =>
    if kv.1 == n then (n, t) :: rest else kv :: insertReg rest n t

/-- Errors raised inside `DataMerger` (or by pandas under it); each
constructor corresponds to one raise site. -/
inductive MErr where
  /-- `ValueError(f"Required DataFrames not found: {left_file} or {right_file}")` -/
  | requiredNotFound (l r : String)
  /-- `ValueError(f"DataFrame '{df_name}' not found")` (inside `concatenate`) -/
  | dfNotFound (n : String)
  /-- `ValueError(f"Unknown operation type: {operation_type}")` -/
  | unknownOperationType (t : String)
  /-- `join_step.get("join_on")` missing or shorter than two entries:
  Python `TypeError`/`IndexError` at `keys[0]` / `keys[1]`. -/
  | keySpecError
  /-- `pd.merge` called with a key binding that resolved to `None`. -/
  | mergeKeyError
  /-- `pd.merge` key column absent from its table (`KeyError`). -/
  | keyError (c : String)
  /-- `pd.merge` with a join kind it does not accept. -/
  | invalidHow (h : String)
  /-- Failure of the per-step artifact write (`to_csv`), carrying the
  OS-level message; the `except` block logs it and re-raises it. -/
  | ioError (m : String)
  /-- `UnboundLocalError`: the `return` statement reads `final_left_file`,
  which no loop iteration assigned. -/
  | unboundLocalFinalLeftFile
  deriving DecidableEq, Repr

/-- Join one left row with one right row: left cells then right cells,
with the right key column dropped when both sides join on the same label,
as `pd.merge` coalesces equally-named key columns.  (Suffixing of other
overlapping labels is a renaming of labels only and is not observed by any
claim; column labels of a merge result are not inspected below.) -/
def joinRow (dropJ : Option Nat) (lr rr : List Value) : List Value :=
  lr ++ (match dropJ with
         | some j => rr.take j ++ rr.drop (j + 1)
         | Option.none => rr)

/-- A null row of the given width. -/
def nullRow (w : Nat) : List Value := List.replicate w .null

/-- `pd.merge(left, right, left_on=lk, right_on=rk, how=how)` on single
key columns, as `run_joins` invokes it.  Row production: `inner` pairs
each left row with its key matches on the right; `left` keeps unmatched
left rows null-filled; `right` symmetrically follows the right frame
order; `outer` is the left join followed by the unmatched right rows. -/
def pdMerge (left right : Table) (lk rk : Option String) (how : String) :
    Except MErr Table :=
  match lk, rk with
  | some lkc, some rkc =>
    match colIdx left.cols lkc, colIdx right.cols rkc with
    | some li, some ri =>
      if how == "inner" || how == "left" || how == "right" || how == "outer" then
        let dropJ : Option Nat := if lkc == rkc then some ri else Option.none
        let cols := left.cols ++ (match dropJ with
                                  | some _ => right.cols.take ri ++ right.cols.drop (ri + 1)
                                  | Option.none => right.cols)
        let rMatches := fun (lr : List Value) =>
          right.rows.filter (fun rr => rr.getD ri .null == lr.getD li .null)
        let lMatches := fun (rr : List Value) =>
          left.rows.filter (fun lr => lr.getD li .null == rr.getD ri .null)
        let innerRows := left.rows.flatMap (fun lr => (rMatches lr).map (fun rr => joinRow dropJ lr rr))
        let leftRows := left.rows.flatMap (fun lr =>
          match rMatches lr with
          | [] => [joinRow dropJ lr (nullRow right.cols.length)]
          | ms => ms.map (fun rr => joinRow dropJ lr rr))
        let rightRows := right.rows.flatMap (fun rr =>
          match lMatches rr with
          | [] => [joinRow dropJ (nullRow left.cols.length) rr]
          | ms => ms.map (fun lr => joinRow dropJ lr rr))
        let outerRows := leftRows ++ (right.rows.filter (fun rr => lMatches rr = [])).map
          (fun rr => joinRow dropJ (nullRow left.cols.length) rr)
        let rows := if how == "inner" then innerRows
                    else if how == "left" then leftRows
                    else if how == "right" then rightRows
                    else outerRows
        .ok { cols := cols, rows := rows }
      else .error (.invalidHow how)
    | some _, Option.none => .error (.keyError rkc)
    | _, _ => .error (.keyError lkc)
  | _, _ => .error .mergeKeyError

/-- Union of column label lists in order of first appearance. -/
def unionCols (acc : List String) : List (List String) → List String
  | [] => acc
  | cs :: rest => unionCols (acc ++ cs.filter (fun c => !acc.contains c)) rest

/-- Reindex a row of table `t` to the union label list, null-filling the
labels `t` lacks. -/
def reindexRow (cols : List String) (union : List String) (r : List Value) :
    List Value :=
  union.map (fun c => if cols.contains c then getCell cols r c else .null)

/-- The resolution loop at the top of `concatenate`: collect the named
tables in order, raising at the first name the registry lacks. -/
def resolveNames (d : Registry) : List String → Except MErr (List Table)
  | [] => .ok []
  | n :: rest =>
    match lookupReg d n with
    | some t =>
      match resolveNames d rest with
      | .error e => .error e
      | .ok ts => .ok (t :: ts)
    | Option.none => .error (.dfNotFound n)

/-- `DataMerger.concatenate`: resolve every name in order (the first
missing name raises), then stack all rows over the union of the column
sets, null-filling absent columns.  `ignore_index` only renumbers the
pandas index, which this embedding does not represent. -/
def concatenate (d : Registry) (names : List String) (_ignore_index : Bool) :
    Except MErr Table :=
  match resolveNames d names with
  | .error e => .error e
  | .ok ts =>
    let union := unionCols [] (ts.map Table.cols)
    .ok { cols := union
          rows := ts.flatMap (fun t => t.rows.map (reindexRow t.cols union)) }

/-- One join/concat step as configured.  Fields mirror the keys read with
`join_step.get(...)`; `type` defaults to `"merge"`, `output` to
`f"join_step{step}"` (applied where the executor reads it), `join_type` to
`"inner"`, `dataframes` to `[]`, `ignore_index` to `True`. -/
structure JoinStep where
  type_ : String := "merge"
  source : String := ""
  join_with : String := ""
  join_on : List (List (String × String)) := []
  join_type : String := "inner"
  output : Option String := Option.none
  dataframes : List String := []
  ignore_index : Bool := true

/-- Lookup in one `join_on` entry (a one-key mapping in the
configuration). -/
def keyGet (m : List (String × String)) (k : String) : Option String :=
  (List.find? (fun kv => kv.1 == k) m).map (fun kv => kv.2)

/-- The artifact file name of step `n`: `f"step{step}_{output_name}.csv"`. -/
def artifactName (n : Nat) (output_name : String) : String :=
  "step" ++ toString n ++ "_" ++ output_name ++ ".csv"

/-- The body of one iteration of the `run_joins` loop, up to but not
including the artifact write: dispatch on the step type, perform the
operation, bind the result into the registry — a merge binds it under the
step's `source` name (and under nothing else), a concat under the step's
`output` name — and record the name that becomes the running
`final_left_file`.  Returns the updated registry, that name, and the
step's result table. -/
def runStepBody (d : Registry) (step : JoinStep) (n : Nat) :
    Except MErr (Registry × String × Table) :=
  if step.type_ == "merge" then
    match step.join_on.get? 0, step.join_on.get? 1 with
    | some k0, some k1 =>
      match lookupReg d step.source, lookupReg d step.join_with with
      | some left_df, some right_df =>
        match pdMerge left_df right_df (keyGet k0 step.source) (keyGet k1 step.join_with)
            step.join_type with
        | .error e => .error e
        | .ok result => .ok (insertReg d step.source result, step.source, result)
      | _, _ => .error (.requiredNotFound step.source step.join_with)
    | _, _ => .error .keySpecError
  else if step.type_ == "concat" then
    match concatenate d step.dataframes step.ignore_index with
    | .error e => .error e
    | .ok result => .ok (insertReg d (step.output.getD ("join_step" ++ toString n)) result,
        step.output.getD ("join_step" ++ toString n), result)
  else .error (.unknownOperationType step.type_)

/-- The loop of `run_joins`: run the step body, then write the artifact
`f"step{step}_{output_name}.csv"` through the writer `write` (the model of
`to_csv` and the file system under it).  Every exception inside the loop —
the step body's or the writer's — is logged and re-raised by the `except`
block, aborting the run; the `finally` block advances the step counter. -/
def run_joinsAux (write : String → Table → Except MErr Unit) (d : Registry)
    (final_left_file : Option String) (n : Nat) :
    List JoinStep → Except MErr (Registry × String)
  | [] =>
    match final_left_file with
    | some name => .ok (d, name)
    | Option.none => .error .unboundLocalFinalLeftFile
  | step :: rest =>
    match runStepBody d step n with
    | .error e => .error e
    | .ok (d2, fname, result) =>
      match write (artifactName n (step.output.getD ("join_step" ++ toString n))) result with
      | .error e => .error e
      | .ok _ => run_joinsAux write d2 (some fname) (n + 1) rest

/-- `DataMerger.run_joins`: execute the configured steps in order starting
from step counter 1; once the loop ends, return the registry together with
`final_left_file` — reading that variable raises `UnboundLocalError` when
no iteration assigned it. -/
def run_joins (write : String → Table → Except MErr Unit) (d : Registry)
    (steps : List JoinStep) : Except MErr (Registry × String) :=
  run_joinsAux write d Option.none 1 steps

/- ## Ground lemmas about the `int`/`str` model -/

theorem digitChar_toNat {d : Nat} (h : d < 10) : (digitChar d).toNat = 48 + d := by
  interval_cases d <;> decide

theorem isAsciiDigit_digitChar {d : Nat} (h : d < 10) :
    isAsciiDigit (digitChar d) = true := by
  interval_cases d <;> decide

theorem natDigits_ne_nil (n : Nat) : natDigits n ≠ [] := by
  rw [natDigits_eq]
  split <;> simp

theorem natDigits_all_digit (n : Nat) : ∀ c ∈ natDigits n, isAsciiDigit c = true := by
  induction n using Nat.strong_induction_on with
  | _ n ih =>
    rw [natDigits_eq]
    split
    · next h =>
      intro c hc
      simp only [List.mem_singleton] at hc
      subst hc
      exact isAsciiDigit_digitChar h
    · next h =>
      intro c hc
      rw [List.mem_append, List.mem_singleton] at hc
      rcases hc with hc | hc
      · exact ih (n / 10) (Nat.div_lt_self (by omega) (by omega)) c hc
      · subst hc
        exact isAsciiDigit_digitChar (Nat.mod_lt _ (by omega))

theorem beq_false_of_digit {c x : Char} (h : isAsciiDigit c = true)
    (hx : isAsciiDigit x = false) : (c == x) = false := by
  by_contra hb
  rw [Bool.not_eq_false] at hb
  rw [eq_of_beq hb, hx] at h
  cases h

theorem isPySpace_of_digit {c : Char} (h : isAsciiDigit c = true) :
    isPySpace c = false := by
  simp only [isPySpace]
  rw [beq_false_of_digit h (by decide), beq_false_of_digit h (by decide),
    beq_false_of_digit h (by decide), beq_false_of_digit h (by decide),
    beq_false_of_digit h (by decide), beq_false_of_digit h (by decide)]
  rfl

theorem dropWhile_isPySpace_eq_self {l : List Char}
    (h : ∀ c ∈ l, isPySpace c = false) : l.dropWhile isPySpace = l := by
  cases l with
  | nil => rfl
  | cons c rest =>
    rw [List.dropWhile_cons, h c (List.mem_cons_self c rest)]
    simp

theorem stripWs_eq_self {l : List Char} (h : ∀ c ∈ l, isPySpace c = false) :
    stripWs l = l := by
  unfold stripWs
  rw [dropWhile_isPySpace_eq_self h,
    dropWhile_isPySpace_eq_self (fun c hc => h c (List.mem_reverse.mp hc)),
    List.reverse_reverse]

theorem foldl_pyDigitStep_natDigits (n : Nat) :
    ∀ a, (natDigits n).foldl pyDigitStep a = a * 10 ^ (natDigits n).length + n := by
  induction n using Nat.strong_induction_on with
  | _ n ih =>
    intro a
    rw [natDigits_eq]
    split
    · next h =>
      have hbe : (digitChar n == '_') = false :=
        beq_false_of_digit (isAsciiDigit_digitChar h) (by decide)
      simp only [List.foldl_cons, List.foldl_nil, List.length_singleton, pyDigitStep, hbe,
        Bool.false_eq_true, if_false, digitChar_toNat h, pow_one]
      omega
    · next h =>
      have hm : n % 10 < 10 := Nat.mod_lt _ (by omega)
      have hbe : (digitChar (n % 10) == '_') = false :=
        beq_false_of_digit (isAsciiDigit_digitChar hm) (by decide)
      rw [List.foldl_append, ih (n / 10) (Nat.div_lt_self (by omega) (by omega)) a]
      simp only [List.foldl_cons, List.foldl_nil, pyDigitStep, hbe, Bool.false_eq_true,
        if_false, digitChar_toNat hm, List.length_append, List.length_singleton]
      have hd : 48 + n % 10 - 48 = n % 10 := by omega
      rw [hd]
      calc (a * 10 ^ (natDigits (n / 10)).length + n / 10) * 10 + n % 10
          = a * (10 ^ (natDigits (n / 10)).length * 10) + (10 * (n / 10) + n % 10) := by
            ring
        _ = a * 10 ^ ((natDigits (n / 10)).length + 1) + n := by
            rw [Nat.div_add_mod, pow_succ]

theorem noDoubleUS_of_digits : ∀ (l : List Char),
    (∀ c ∈ l, isAsciiDigit c = true) → noDoubleUS l = true := by
  intro l
  induction l with
  | nil => intro _; rfl
  | cons c rest ih =>
    intro h
    cases rest with
    | nil => rfl
    | cons c2 rest2 =>
      rw [noDoubleUS]
      have h1 : (c == '_') = false :=
        beq_false_of_digit (h c (List.mem_cons_self _ _)) (by decide)
      rw [h1]
      simp only [Bool.false_and, Bool.not_false, Bool.true_and]
      exact ih (fun x hx => h x (List.mem_cons_of_mem _ hx))

theorem getLastD_digit : ∀ (l : List Char) (a : Char), isAsciiDigit a = true →
    (∀ c ∈ l, isAsciiDigit c = true) → isAsciiDigit (l.getLastD a) = true := by
  intro l
  induction l with
  | nil => intro a ha _; exact ha
  | cons c rest ih =>
    intro a _ h
    rw [List.getLastD_cons]
    exact ih c (h c (List.mem_cons_self _ _)) (fun x hx => h x (List.mem_cons_of_mem _ hx))

theorem validUD_natDigits (n : Nat) : validUD (natDigits n) = true := by
  have hd := natDigits_all_digit n
  cases hl : natDigits n with
  | nil => exact absurd hl (natDigits_ne_nil n)
  | cons c rest =>
    rw [hl] at hd
    rw [validUD]
    have hc : isAsciiDigit c = true := hd c (List.mem_cons_self _ _)
    have hall : ((c :: rest).all fun x => isAsciiDigit x || x == '_') = true := by
      rw [List.all_eq_true]
      intro x hx
      rw [hd x hx]
      rfl
    have hlast : isAsciiDigit ((c :: rest).getLastD 'x') = true := by
      rw [List.getLastD_cons]
      exact getLastD_digit rest c hc (fun x hx => hd x (List.mem_cons_of_mem _ hx))
    rw [hc, hall, hlast, noDoubleUS_of_digits _ hd]
    rfl

theorem pyIntCore_natDigits (n : Nat) : pyIntCore (natDigits n) = some n := by
  rw [pyIntCore, validUD_natDigits]
  simp only [if_true, foldVal, foldl_pyDigitStep_natDigits n 0, Nat.zero_mul, Nat.zero_add]

theorem pythonInt_natRepr (n : Nat) : pythonInt (natRepr n) = some (n : Int) := by
  have hs : stripWs (natRepr n).data = natDigits n :=
    stripWs_eq_self (fun c hc => isPySpace_of_digit (natDigits_all_digit n c hc))
  cases hl : natDigits n with
  | nil => exact absurd hl (natDigits_ne_nil n)
  | cons c rest =>
    have hc : isAsciiDigit c = true := by
      apply natDigits_all_digit n
      rw [hl]
      exact List.mem_cons_self _ _
    rw [pythonInt, hs, hl]
    have h1 : (c == '+') = false := beq_false_of_digit hc (by decide)
    have h2 : (c == '-') = false := beq_false_of_digit hc (by decide)
    simp only [h1, h2, Bool.false_eq_true, if_false, ← hl, pyIntCore_natDigits]
    rfl

theorem stripDashes_natRepr (n : Nat) : stripDashes (natRepr n) = natRepr n := by
  apply String.ext
  show List.filter (fun c => c != '-') (natDigits n) = natDigits n
  rw [List.filter_eq_self]
  intro c hc
  have hd := natDigits_all_digit n c hc
  have : (c == '-') = false := beq_false_of_digit hd (by decide)
  simp [bne, this]

theorem mem_stripWs {l : List Char} {c : Char} (h : c ∈ stripWs l) : c ∈ l := by
  unfold stripWs at h
  rw [List.mem_reverse] at h
  have h2 := (List.dropWhile_sublist isPySpace).subset h
  rw [List.mem_reverse] at h2
  exact (List.dropWhile_sublist isPySpace).subset h2

theorem pythonInt_stripDashes_nonneg {s : String} {n : Int}
    (h : pythonInt (stripDashes s) = some n) : 0 ≤ n := by
  have hnd : ∀ c ∈ (stripDashes s).data, (c == '-') = false := by
    intro c hc
    have : (c != '-') = true := (List.mem_filter.mp hc).2
    simpa [bne] using this
  rw [pythonInt] at h
  cases hstrip : stripWs (stripDashes s).data with
  | nil => rw [hstrip] at h; cases h
  | cons c rest =>
    rw [hstrip] at h
    have hc : (c == '-') = false :=
      hnd c (mem_stripWs (hstrip ▸ List.mem_cons_self c rest))
    by_cases hplus : (c == '+') = true
    · simp only [hplus, if_true] at h
      rcases Option.map_eq_some'.mp h with ⟨m, _, hm⟩
      exact hm ▸ Int.ofNat_zero_le m
    · simp only [hplus, hc, Bool.false_eq_true, if_false] at h
      rcases Option.map_eq_some'.mp h with ⟨m, _, hm⟩
      exact hm ▸ Int.ofNat_zero_le m

theorem intRepr_ofNat (m : Nat) : intRepr (m : Int) = natRepr m := by
  rw [intRepr, if_neg (not_lt.mpr (Int.natCast_nonneg m))]
  simp

/-- Unfolded form of `_standardize_id`. -/
theorem _standardize_id_eq (s : String) : _standardize_id s =
    match pythonInt (stripDashes s) with
    | some n => .ok (intRepr n)
    | none => .error (.invalidId (stripDashes s)) := rfl

theorem _standardize_id_roundtrip {s d : String} (h : _standardize_id s = .ok d) :
    _standardize_id d = .ok d := by
  rw [_standardize_id_eq] at h
  cases hp : pythonInt (stripDashes s) with
  | none => rw [hp] at h; cases h
  | some n =>
    rw [hp] at h
    have hd : intRepr n = d := by injection h
    obtain ⟨m, rfl⟩ := Int.eq_ofNat_of_zero_le (pythonInt_stripDashes_nonneg hp)
    rw [intRepr_ofNat] at hd
    subst hd
    rw [_standardize_id_eq, stripDashes_natRepr, pythonInt_natRepr]
    show Except.ok (intRepr (m : Int)) = Except.ok (natRepr m)
    rw [intRepr_ofNat]

/- ## Idempotence of `standardize_id_columns` -/

/-- The cell at column index `j` of a row is already in canonical
standardized form. -/
def CanonAt (j : Nat) (r : List Value) : Prop :=
  ∃ d, r.getD j .null = .s d ∧ _standardize_id d = .ok d

theorem set_getD_self {α : Type} (d : α) : ∀ (l : List α) (j : Nat), j < l.length →
    l.set j (l.getD j d) = l := by
  intro l
  induction l with
  | nil => intro j h; cases h
  | cons x xs ih =>
    intro j h
    cases j with
    | zero => rfl
    | succ k =>
      rw [List.getD_cons_succ, List.set_cons_succ, ih k (by simpa using h)]

theorem _standardize_id_nan : _standardize_id "nan" = .error (.invalidId "nan") := rfl

theorem stdCellAt_ok_inv {j : Nat} {r r2 : List Value} (h : stdCellAt j r = .ok r2) :
    ∃ d, _standardize_id (cellToStr (r.getD j .null)) = .ok d ∧
      r2 = r.set j (.s d) ∧ j < r.length := by
  unfold stdCellAt at h
  cases hs : _standardize_id (cellToStr (r.getD j Value.null)) with
  | error e => rw [hs] at h; cases h
  | ok d =>
    rw [hs] at h
    have h2 : r.set j (.s d) = r2 := by injection h
    have hj : j < r.length := by
      by_contra hj
      rw [List.getD_eq_default _ _ (by omega)] at hs
      rw [show cellToStr Value.null = "nan" from rfl, _standardize_id_nan] at hs
      cases hs
    exact ⟨d, rfl, h2.symm, hj⟩

theorem stdCellAt_canon {j : Nat} {r : List Value} (h : CanonAt j r) :
    stdCellAt j r = .ok r := by
  obtain ⟨d, hd, hstd⟩ := h
  have hj : j < r.length := by
    by_contra hj
    rw [List.getD_eq_default _ _ (by omega)] at hd
    cases hd
  unfold stdCellAt
  rw [hd]
  show (match _standardize_id d with
        | .ok d2 => Except.ok (r.set j (.s d2))
        | .error e => Except.error e) = Except.ok r
  rw [hstd]
  show Except.ok (r.set j (.s d)) = Except.ok r
  rw [← hd, set_getD_self _ r j hj]

theorem stdCellAt_establishes {j : Nat} {r r2 : List Value}
    (h : stdCellAt j r = .ok r2) : CanonAt j r2 := by
  obtain ⟨d, hs, hr2, hj⟩ := stdCellAt_ok_inv h
  refine ⟨d, ?_, _standardize_id_roundtrip hs⟩
  rw [hr2, List.getD_eq_getElem?_getD, List.getElem?_set_self (by simpa using hj)]
  rfl

theorem stdCellAt_preserves_getD {j : Nat} {r r2 : List Value}
    (h : stdCellAt j r = .ok r2) (i : Nat) (hi : i ≠ j) :
    r2.getD i .null = r.getD i .null := by
  obtain ⟨d, _, hr2, _⟩ := stdCellAt_ok_inv h
  rw [hr2, List.getD_eq_getElem?_getD, List.getElem?_set_ne (fun e => hi e.symm),
    ← List.getD_eq_getElem?_getD]

theorem CanonAt_congr {i : Nat} {r r2 : List Value}
    (he : r2.getD i .null = r.getD i .null) (h : CanonAt i r) : CanonAt i r2 := by
  obtain ⟨d, hd, hstd⟩ := h
  exact ⟨d, he ▸ hd, hstd⟩

theorem stdColumn_canon {j : Nat} : ∀ {rows : List (List Value)},
    (∀ r ∈ rows, CanonAt j r) → stdColumn j rows = .ok rows := by
  intro rows
  induction rows with
  | nil => intro _; rfl
  | cons r rs ih =>
    intro h
    rw [stdColumn, stdCellAt_canon (h r (List.mem_cons_self _ _)),
      ih (fun x hx => h x (List.mem_cons_of_mem _ hx))]

theorem stdColumn_establishes {j : Nat} : ∀ {rows rows2 : List (List Value)},
    stdColumn j rows = .ok rows2 → ∀ r2 ∈ rows2, CanonAt j r2 := by
  intro rows
  induction rows with
  | nil =>
    intro rows2 h r2 hr2
    rw [stdColumn] at h
    injection h with h
    rw [← h] at hr2
    cases hr2
  | cons r rs ih =>
    intro rows2 h r2 hr2
    rw [stdColumn] at h
    cases hc : stdCellAt j r with
    | error e => rw [hc] at h; cases h
    | ok rr =>
      rw [hc] at h
      cases hcol : stdColumn j rs with
      | error e => rw [hcol] at h; cases h
      | ok rest2 =>
        rw [hcol] at h
        injection h with h
        rw [← h] at hr2
        rcases List.mem_cons.mp hr2 with he | he
        · subst he; exact stdCellAt_establishes hc
        · exact ih hcol r2 he

theorem stdColumn_preserves_canon {j i : Nat} : ∀ (rows rows2 : List (List Value)),
    stdColumn j rows = .ok rows2 → (∀ r ∈ rows, CanonAt i r) →
    ∀ r2 ∈ rows2, CanonAt i r2 := by
  intro rows
  induction rows with
  | nil =>
    intro rows2 h _ r2 hr2
    rw [stdColumn] at h
    injection h with h
    rw [← h] at hr2
    cases hr2
  | cons r rs ih =>
    intro rows2 h hcan r2 hr2
    rw [stdColumn] at h
    cases hc : stdCellAt j r with
    | error e => rw [hc] at h; cases h
    | ok rr =>
      rw [hc] at h
      cases hcol : stdColumn j rs with
      | error e => rw [hcol] at h; cases h
      | ok rest2 =>
        rw [hcol] at h
        injection h with h
        rw [← h] at hr2
        rcases List.mem_cons.mp hr2 with he | he
        · subst he
          by_cases hij : i = j
          · subst hij
            exact stdCellAt_establishes hc
          · exact CanonAt_congr (stdCellAt_preserves_getD hc i hij)
              (hcan r (List.mem_cons_self _ _))
        · exact ih rest2 hcol (fun x hx => hcan x (List.mem_cons_of_mem _ hx)) r2 he

theorem standardize_cols_eq : ∀ (cs : List String) (t t2 : Table),
    standardize_id_columns t cs = .ok t2 → t2.cols = t.cols := by
  intro cs
  induction cs with
  | nil =>
    intro t t2 h
    rw [standardize_id_columns] at h
    injection h with h
    rw [← h]
  | cons c rest ih =>
    intro t t2 h
    rw [standardize_id_columns] at h
    split at h
    · cases h
    · split at h
      · cases h
      · rename_i rows2 hcol
        exact ih { cols := t.cols, rows := rows2 } t2 h

theorem standardize_canon : ∀ (cs : List String) (t : Table),
    (∀ c ∈ cs, ∃ j, colIdx t.cols c = some j ∧ ∀ r ∈ t.rows, CanonAt j r) →
    standardize_id_columns t cs = .ok t := by
  intro cs
  induction cs with
  | nil => intro t _; rfl
  | cons c rest ih =>
    intro t h
    obtain ⟨j, hj, hcanon⟩ := h c (List.mem_cons_self _ _)
    rw [standardize_id_columns, hj]
    show (match stdColumn j t.rows with
          | .error e => Except.error e
          | .ok rows2 => standardize_id_columns { t with rows := rows2 } rest) =
        Except.ok t
    rw [stdColumn_canon hcanon]
    show standardize_id_columns t rest = Except.ok t
    exact ih t (fun x hx => h x (List.mem_cons_of_mem _ hx))

theorem standardize_preserves_canon {i : Nat} : ∀ (cs : List String) (t t2 : Table),
    standardize_id_columns t cs = .ok t2 → (∀ r ∈ t.rows, CanonAt i r) →
    ∀ r ∈ t2.rows, CanonAt i r := by
  intro cs
  induction cs with
  | nil =>
    intro t t2 h hc
    rw [standardize_id_columns] at h
    injection h with h
    rw [← h]
    exact hc
  | cons c rest ih =>
    intro t t2 h hc
    rw [standardize_id_columns] at h
    split at h
    · cases h
    · split at h
      · cases h
      · rename_i rows2 hcol
        exact ih _ t2 h (stdColumn_preserves_canon t.rows rows2 hcol hc)

theorem standardize_establishes : ∀ (cs : List String) (t t2 : Table),
    standardize_id_columns t cs = .ok t2 →
    ∀ c ∈ cs, ∃ j, colIdx t.cols c = some j ∧ ∀ r ∈ t2.rows, CanonAt j r := by
  intro cs
  induction cs with
  | nil => intro t t2 _ c hc; cases hc
  | cons c0 rest ih =>
    intro t t2 h c hc
    rw [standardize_id_columns] at h
    split at h
    · cases h
    · rename_i j hj
      split at h
      · cases h
      · rename_i rows2 hcol
        rcases List.mem_cons.mp hc with he | he
        · subst he
          exact ⟨j, hj, standardize_preserves_canon rest _ t2 h
            (stdColumn_establishes hcol)⟩
        · exact ih { t with rows := rows2 } t2 h c he

theorem standardize_idem {cs : List String} {t t2 : Table}
    (h : standardize_id_columns t cs = .ok t2) :
    standardize_id_columns t2 cs = .ok t2 := by
  apply standardize_canon
  intro c hc
  obtain ⟨j, hj, hcan⟩ := standardize_establishes cs t t2 h c hc
  exact ⟨j, by rw [standardize_cols_eq cs t t2 h]; exact hj, hcan⟩

/- ## Inversion lemmas for `standardize_id_columns` error reporting -/

theorem _standardize_id_ok_parse {s d : String} (h : _standardize_id s = .ok d) :
    pythonInt (stripDashes s) ≠ none := by
  rw [_standardize_id_eq] at h
  intro hn
  rw [hn] at h
  cases h

theorem _standardize_id_err_inv {s v : String}
    (h : _standardize_id s = .error (.invalidId v)) :
    v = stripDashes s ∧ pythonInt (stripDashes s) = none := by
  rw [_standardize_id_eq] at h
  cases hp : pythonInt (stripDashes s) with
  | none =>
    rw [hp] at h
    injection h with h
    injection h with h
    exact ⟨h.symm, rfl⟩
  | some n => rw [hp] at h; cases h

theorem stdCellAt_err_inv {j : Nat} {r : List Value} {e : TErr}
    (h : stdCellAt j r = .error e) :
    _standardize_id (cellToStr (r.getD j .null)) = .error e := by
  unfold stdCellAt at h
  cases hs : _standardize_id (cellToStr (r.getD j Value.null)) with
  | error e2 => rw [hs] at h; injection h with h; rw [h]
  | ok d => rw [hs] at h; cases h

theorem stdColumn_err_inv {j : Nat} {e : TErr} : ∀ {rows : List (List Value)},
    stdColumn j rows = .error e → ∃ r ∈ rows, stdCellAt j r = .error e := by
  intro rows
  induction rows with
  | nil => intro h; cases h
  | cons r rs ih =>
    intro h
    rw [stdColumn] at h
    cases hc : stdCellAt j r with
    | error e2 =>
      rw [hc] at h
      injection h with h
      subst h
      exact ⟨r, List.mem_cons_self _ _, hc⟩
    | ok rr =>
      rw [hc] at h
      cases hcol : stdColumn j rs with
      | error e2 =>
        rw [hcol] at h
        injection h with h
        subst h
        obtain ⟨r2, hr2, hcell⟩ := ih hcol
        exact ⟨r2, List.mem_cons_of_mem _ hr2, hcell⟩
      | ok rest2 => rw [hcol] at h; cases h

theorem stdColumn_ok_all_parse {j : Nat} : ∀ {rows rows2 : List (List Value)},
    stdColumn j rows = .ok rows2 →
    ∀ r ∈ rows, pythonInt (stripDashes (cellToStr (r.getD j .null))) ≠ none := by
  intro rows
  induction rows with
  | nil => intro rows2 _ r hr; cases hr
  | cons r rs ih =>
    intro rows2 h r0 hr0
    rw [stdColumn] at h
    cases hc : stdCellAt j r with
    | error e => rw [hc] at h; cases h
    | ok rr =>
      rw [hc] at h
      cases hcol : stdColumn j rs with
      | error e => rw [hcol] at h; cases h
      | ok rest2 =>
        rcases List.mem_cons.mp hr0 with he | he
        · subst he
          obtain ⟨d, hs, _, _⟩ := stdCellAt_ok_inv hc
          exact _standardize_id_ok_parse hs
        · exact ih hcol r0 he

theorem colIdx_mem {cols : List String} {c : String} {j : Nat}
    (h : colIdx cols c = some j) : c ∈ cols ∧ j < cols.length := by
  rw [colIdx] at h
  obtain ⟨hlt, hfi⟩ := List.findIdx?_eq_some_iff_findIdx_eq.mp h
  subst hfi
  refine ⟨?_, hlt⟩
  have hp := List.findIdx_getElem (w := hlt)
  exact eq_of_beq hp ▸ List.getElem_mem hlt

theorem standardize_single_ok {t t2 : Table} {c : String}
    (h : standardize_id_columns t [c] = .ok t2) :
    c ∈ t.cols ∧ ∀ r ∈ t.rows,
      pythonInt (stripDashes (cellToStr (getCell t.cols r c))) ≠ none := by
  rw [standardize_id_columns] at h
  split at h
  · cases h
  · rename_i j hj
    split at h
    · cases h
    · rename_i rows2 hcol
      refine ⟨(colIdx_mem hj).1, ?_⟩
      intro r hr
      have hg : getCell t.cols r c = r.getD j .null := by rw [getCell, hj]
      rw [hg]
      exact stdColumn_ok_all_parse hcol r hr

theorem standardize_single_err {t : Table} {c v : String}
    (h : standardize_id_columns t [c] = .error (.invalidId v)) :
    ∃ r ∈ t.rows, v = stripDashes (cellToStr (getCell t.cols r c)) ∧
      pythonInt v = none := by
  rw [standardize_id_columns] at h
  split at h
  · injection h with h
    cases h
  · rename_i j hj
    split at h
    · rename_i e hcol
      injection h with h
      subst h
      obtain ⟨r, hr, hcell⟩ := stdColumn_err_inv hcol
      obtain ⟨hv, hp⟩ := _standardize_id_err_inv (stdCellAt_err_inv hcell)
      refine ⟨r, hr, ?_, hv ▸ hp⟩
      rw [getCell, hj]
      exact hv
    · rw [standardize_id_columns] at h
      cases h

/- ## The 1..k numbering property of `add_group_order` -/

instance {ε α : Type} [DecidableEq ε] [DecidableEq α] : DecidableEq (Except ε α) :=
  fun a b =>
  match a, b with
  | .ok x, .ok y =>
    if h : x = y then .isTrue (by rw [h]) else .isFalse (fun hh => h (by injection hh))
  | .error x, .error y =>
    if h : x = y then .isTrue (by rw [h]) else .isFalse (fun hh => h (by injection hh))
  | .ok _, .error _ => .isFalse (fun hh => Except.noConfusion hh)
  | .error _, .ok _ => .isFalse (fun hh => Except.noConfusion hh)

theorem cumOrders_filter (key key2 : List Value → List Value) :
    ∀ (rows : List (List Value)), ∀ (seen : List (List Value)) (K : List Value),
    (∀ r ∈ rows, ∀ v : Value, key2 (r ++ [v]) = key r) →
    ((List.zipWith (fun r n => r ++ [Value.i (Int.ofNat n)]) rows (cumOrders key seen rows)).filter
        (fun r2 => key2 r2 == K)).map (fun r2 => r2.getLast?)
      = (List.range' (seen.count K + 1) ((rows.map key).count K)).map
          (fun n => some (Value.i (Int.ofNat n))) := by
  intro rows
  induction rows with
  | nil => intro seen K _; rfl
  | cons r rs ih =>
    intro seen K hext
    rw [cumOrders, List.zipWith_cons_cons, List.filter_cons]
    have hkey : key2 (r ++ [Value.i (Int.ofNat (seen.count (key r) + 1))]) = key r :=
      hext r (List.mem_cons_self _ _) _
    have htail := ih (key r :: seen) K (fun x hx => hext x (List.mem_cons_of_mem _ hx))
    by_cases hK : key r = K
    · rw [if_pos (by rw [hkey, hK]; exact beq_self_eq_true K)]
      rw [List.map_cons, List.getLast?_concat, htail]
      have hseen : (key r :: seen).count K = seen.count K + 1 := by
        rw [List.count_cons, hK, beq_self_eq_true, if_pos rfl]
      have hcnt : ((r :: rs).map key).count K = (rs.map key).count K + 1 := by
        rw [List.map_cons, List.count_cons, hK, beq_self_eq_true, if_pos rfl]
      rw [hseen, hcnt, List.range'_succ, List.map_cons, hK]
    · have hcond : (key2 (r ++ [Value.i (Int.ofNat (seen.count (key r) + 1))]) == K) = false := by
        rw [hkey]
        exact beq_eq_false_iff_ne.mpr hK
      simp only [hcond, Bool.false_eq_true, if_false]
      rw [htail]
      have hseen : (key r :: seen).count K = seen.count K := by
        rw [List.count_cons, if_neg (by simp [hK]), Nat.add_zero]
      have hcnt : ((r :: rs).map key).count K = (rs.map key).count K := by
        rw [List.map_cons, List.count_cons, if_neg (by simp [hK]), Nat.add_zero]
      rw [hseen, hcnt]

theorem colIdx_some_of_mem {cols : List String} {c : String} (h : c ∈ cols) :
    ∃ j, colIdx cols c = some j ∧ j < cols.length := by
  cases hj : colIdx cols c with
  | some j => exact ⟨j, rfl, (colIdx_mem hj).2⟩
  | none =>
    have := List.findIdx?_eq_none_iff.mp hj c h
    rw [beq_self_eq_true] at this
    cases this

theorem getCell_append {cols : List String} {r : List Value} {c : String} {v : Value}
    (hc : c ∈ cols) (halign : r.length = cols.length) :
    getCell cols (r ++ [v]) c = getCell cols r c := by
  obtain ⟨j, hj, hjl⟩ := colIdx_some_of_mem hc
  rw [getCell, getCell, hj]
  exact List.getD_append _ _ _ _ (by omega)

theorem dupKey_append {cols gcols : List String} {r : List Value} {v : Value}
    (hg : ∀ c ∈ gcols, c ∈ cols) (halign : r.length = cols.length) :
    dupKey cols gcols (r ++ [v]) = dupKey cols gcols r := by
  rw [dupKey, dupKey]
  exact List.map_congr_left (fun c hc => getCell_append (hg c hc) halign)

theorem mem_insertRowStable {key : List Value → List Value} {x : List Value} :
    ∀ {l : List (List Value)} {y : List Value},
    y ∈ insertRowStable key x l → y = x ∨ y ∈ l := by
  intro l
  induction l with
  | nil =>
    intro y hy
    rw [insertRowStable] at hy
    rcases List.mem_singleton.mp hy with he
    exact Or.inl he
  | cons z zs ih =>
    intro y hy
    rw [insertRowStable] at hy
    split at hy
    · rcases List.mem_cons.mp hy with he | he
      · exact Or.inr (he ▸ List.mem_cons_self _ _)
      · rcases ih he with he2 | he2
        · exact Or.inl he2
        · exact Or.inr (List.mem_cons_of_mem _ he2)
    · rcases List.mem_cons.mp hy with he | he
      · exact Or.inl he
      · exact Or.inr he

theorem mem_sortRowsBy {key : List Value → List Value} :
    ∀ {rows : List (List Value)} {y : List Value},
    y ∈ sortRowsBy key rows → y ∈ rows := by
  have haux : ∀ (rows acc : List (List Value)) (y : List Value),
      y ∈ rows.foldl (fun a x => insertRowStable key x a) acc → y ∈ acc ∨ y ∈ rows := by
    intro rows
    induction rows with
    | nil => intro acc y hy; exact Or.inl hy
    | cons r rs ih =>
      intro acc y hy
      rw [List.foldl_cons] at hy
      rcases ih (insertRowStable key r acc) y hy with hl | hl
      · rcases mem_insertRowStable hl with he | he
        · exact Or.inr (he ▸ List.mem_cons_self _ _)
        · exact Or.inl he
      · exact Or.inr (List.mem_cons_of_mem _ hl)
  intro rows y hy
  rcases haux rows [] y hy with hl | hl
  · cases hl
  · exact hl

theorem add_group_order_inv {t : Table} {gcols : List String} {ord : String} {t2 : Table}
    (h : add_group_order t gcols ord = .ok t2) (hord : colIdx t.cols ord = none) :
    (∀ c ∈ gcols, c ∈ t.cols) ∧
    t2.cols = t.cols ++ [ord] ∧
    t2.rows = List.zipWith (fun r n => r ++ [Value.i (Int.ofNat n)])
      (sortRowsBy (fun r => dupKey t.cols gcols r) t.rows)
      (cumOrders (fun r => dupKey t.cols gcols r) []
        (sortRowsBy (fun r => dupKey t.cols gcols r) t.rows)) := by
  rw [add_group_order] at h
  split at h
  · cases h
  · split at h
    · cases h
    · rename_i heq
      have hmem : ∀ c ∈ gcols, c ∈ t.cols := by
        intro c hc
        have := List.filter_eq_nil_iff.mp heq c hc
        simpa using this
      injection h with h
      refine ⟨hmem, ?_, ?_⟩ <;>
      · rw [← h]
        simp [setColumn, hord, List.zipWith_map_right]

/- ## Executor lemmas (`run_joins`) -/

theorem lookupReg_insert_ne {n n2 : String} {t : Table} : ∀ {d : Registry}, n2 ≠ n →
    lookupReg (insertReg d n t) n2 = lookupReg d n2 := by
  intro d
  induction d with
  | nil =>
    intro h
    have hn2 : ((n, t).1 == n2) = false := beq_eq_false_iff_ne.mpr (fun e => h e.symm)
    rw [insertReg, lookupReg, lookupReg, hn2]
    rfl
  | cons kv rest ih =>
    intro h
    rw [insertReg]
    by_cases hk : (kv.1 == n) = true
    · rw [if_pos hk]
      have hn2 : ((n, t).1 == n2) = false := beq_eq_false_iff_ne.mpr (fun e => h e.symm)
      have hk2 : (kv.1 == n2) = false := by
        rw [eq_of_beq hk]
        exact beq_eq_false_iff_ne.mpr (fun e => h e.symm)
      rw [lookupReg, lookupReg, hn2, hk2]
      rfl
    · rw [if_neg hk]
      rw [lookupReg, lookupReg]
      cases hk2 : (kv.1 == n2) with
      | true => rfl
      | false => exact ih h

theorem runStepBody_merge_inv {d : Registry} {step : JoinStep} {n : Nat}
    {d2 : Registry} {fname : String} {res : Table}
    (ht : step.type_ = "merge") (hb : runStepBody d step n = .ok (d2, fname, res)) :
    d2 = insertReg d step.source res ∧ fname = step.source := by
  unfold runStepBody at hb
  rw [ht, if_pos (show (("merge" == "merge") = true) from rfl)] at hb
  split at hb
  · split at hb
    · split at hb
      · cases hb
      · injection hb with hb
        injection hb with hb1 hb2
        injection hb2 with hb2 hb3
        subst hb1 hb2 hb3
        exact ⟨rfl, rfl⟩
    · cases hb
  · cases hb

theorem run_joins_single {write : String → Table → Except MErr Unit} {d : Registry}
    {step : JoinStep} {d2 : Registry} {fname : String} {res : Table}
    (hb : runStepBody d step 1 = .ok (d2, fname, res))
    (hw : write (artifactName 1 (step.output.getD ("join_step" ++ toString 1))) res = .ok ()) :
    run_joins write d [step] = .ok (d2, fname) := by
  show run_joinsAux write d Option.none 1 [step] = .ok (d2, fname)
  rw [run_joinsAux, hb]
  show (match write (artifactName 1 (step.output.getD ("join_step" ++ toString 1))) res with
        | .error e => Except.error e
        | .ok _ => run_joinsAux write d2 (some fname) 2 []) = Except.ok (d2, fname)
  rw [hw]
  rfl

theorem run_joins_write_fails {write : String → Table → Except MErr Unit} {d : Registry}
    {step : JoinStep} {rest : List JoinStep} {d2 : Registry} {fname : String}
    {res : Table} {e : MErr}
    (hb : runStepBody d step 1 = .ok (d2, fname, res))
    (hw : write (artifactName 1 (step.output.getD ("join_step" ++ toString 1))) res = .error e) :
    run_joins write d (step :: rest) = .error e := by
  show run_joinsAux write d Option.none 1 (step :: rest) = .error e
  rw [run_joinsAux, hb]
  show (match write (artifactName 1 (step.output.getD ("join_step" ++ toString 1))) res with
        | .error e => Except.error e
        | .ok _ => run_joinsAux write d2 (some fname) 2 rest) = Except.error e
  rw [hw]

theorem run_joins_step_fails {write : String → Table → Except MErr Unit} {d : Registry}
    {step : JoinStep} {rest : List JoinStep} {e : MErr}
    (hb : runStepBody d step 1 = .error e) :
    run_joins write d (step :: rest) = .error e := by
  show run_joinsAux write d Option.none 1 (step :: rest) = .error e
  rw [run_joinsAux, hb]

theorem runStepBody_merge_unresolved {d : Registry} {step : JoinStep} {n : Nat}
    {k0 k1 : List (String × String)}
    (ht : step.type_ = "merge")
    (h0 : step.join_on.get? 0 = some k0) (h1 : step.join_on.get? 1 = some k1)
    (hmiss : lookupReg d step.source = Option.none ∨
      lookupReg d step.join_with = Option.none) :
    runStepBody d step n = .error (.requiredNotFound step.source step.join_with) := by
  unfold runStepBody
  rw [ht, if_pos (show (("merge" == "merge") = true) from rfl), h0, h1]
  rcases hmiss with hm | hm
  · rw [hm]
  · cases hl : lookupReg d step.source with
    | none => rfl
    | some ldf => rw [hm]

theorem resolveNames_err {d : Registry} {name : String}
    (hname : lookupReg d name = Option.none) :
    ∀ (pre : List String), (∀ p ∈ pre, lookupReg d p ≠ Option.none) →
    ∀ (post : List String),
    resolveNames d (pre ++ name :: post) = .error (.dfNotFound name) := by
  intro pre
  induction pre with
  | nil =>
    intro _ post
    rw [List.nil_append, resolveNames, hname]
  | cons p ps ih =>
    intro hpre post
    rw [List.cons_append, resolveNames]
    cases hp : lookupReg d p with
    | none => exact absurd hp (hpre p (List.mem_cons_self _ _))
    | some tp =>
      rw [ih (fun x hx => hpre x (List.mem_cons_of_mem _ hx)) post]

theorem runStepBody_concat_unresolved {d : Registry} {step : JoinStep} {n : Nat}
    {pre post : List String} {name : String}
    (ht : step.type_ = "concat")
    (hd : step.dataframes = pre ++ name :: post)
    (hpre : ∀ p ∈ pre, lookupReg d p ≠ Option.none)
    (hname : lookupReg d name = Option.none) :
    runStepBody d step n = .error (.dfNotFound name) := by
  unfold runStepBody
  rw [ht, if_neg (by decide), if_pos (show (("concat" == "concat") = true) from rfl)]
  unfold concatenate
  rw [hd, resolveNames_err hname pre hpre post]

/- ## Concrete fixtures used by the claim theorems -/

/-- Rows `(g=1,v=30),(g=1,v=20),(g=2,v=5)` of the specification's
`add_group_order` example. -/
def gTable : Table := ⟨["g", "v"], [[.i 1, .i 30], [.i 1, .i 20], [.i 2, .i 5]]⟩

/-- What `add_group_order(["g"])` actually produces on `gTable`: rows are
sorted only by `g` (ties keep input order), so `v=30` stays first. -/
def gActual : Table :=
  ⟨["g", "v", "order"], [[.i 1, .i 30, .i 1], [.i 1, .i 20, .i 2], [.i 2, .i 5, .i 1]]⟩

/-- The output the specification's example promises (rows sorted by
`["g","v"]`). -/
def gClaimed : Table :=
  ⟨["g", "v", "order"], [[.i 1, .i 20, .i 1], [.i 1, .i 30, .i 2], [.i 2, .i 5, .i 1]]⟩

/-- Two id cells from the specification's `standardize_id_columns`
examples. -/
def idTable : Table := ⟨["id"], [[.s "0123456-8"], [.s "012345678"]]⟩

/-- Their standardized forms. -/
def idStd : Table := ⟨["id"], [[.s "1234568"], [.s "12345678"]]⟩

/-- A left table with a key column `id`. -/
def ordersT : Table := ⟨["id", "x"], [[.s "1", .i 10]]⟩

/-- A right table keyed by `id2`. -/
def custT : Table := ⟨["id2", "y"], [[.s "1", .i 20]]⟩

/-- The left join of `ordersT` with `custT` on `id = id2`. -/
def mergedT : Table := ⟨["id", "x", "id2", "y"], [[.s "1", .i 10, .s "1", .i 20]]⟩

/-- A registry binding the two tables under `"a"` and `"b"`. -/
def reg1 : Registry := [("a", ordersT), ("b", custT)]

/-- A merge step from `"a"` to `"b"` declaring the output name
`"joined"`. -/
def mergeStep : JoinStep :=
  { type_ := "merge", source := "a", join_with := "b",
    join_on := [[("a", "id")], [("b", "id2")]], join_type := "left",
    output := some "joined" }

/-- A concat step copying `"b"` under the name `"copy"`. -/
def concatStep : JoinStep := { type_ := "concat", dataframes := ["b"], output := some "copy" }

/-- A merge step whose source name is absent from `reg1`. -/
def mergeStepMissing : JoinStep :=
  { mergeStep with source := "zzz", join_on := [[("zzz", "id")], [("b", "id2")]] }

/-- A concat step referencing a name absent from `reg1`. -/
def concatStepMissing : JoinStep :=
  { type_ := "concat", dataframes := ["a", "nope"], output := some "cc" }

/-- An artifact writer whose writes all succeed. -/
def okW : String → Table → Except MErr Unit := fun _ _ => .ok ()

/-- An artifact writer whose writes all fail, modelling a full disk. -/
def diskFailW : String → Table → Except MErr Unit := fun _ _ => .error (.ioError "disk full")

/-- A one-cell table used to probe the dispatch loop. -/
def dispatchTable : Table := ⟨["c"], [[.s "x"]]⟩

/-- A concrete stand-in for NFC normalization on the strings exercised
here: it composes the decomposed sequence `"e" + U+0301` into the composed
`U+00E9` (exactly what `unicodedata.normalize("NFC", ·)` does to it) and
leaves every other string unchanged. -/
def nfcModel : String → String := fun s => if s = "e\u0301" then "\u00e9" else s

/-- A table whose one cell holds the composed spelling `U+00E9`. -/
def decTable : Table := ⟨["c"], [[.s "\u00e9"]]⟩

/- ## The claims -/

/-- C1, counterexample: after a successful merge step the registry does
not bind the step's declared output name `"joined"`; the merged table is
bound under the source name `"a"` only, so the claim that it is bound
under both names fails. -/
theorem C1_counterexample :
    run_joins okW reg1 [mergeStep] = .ok ([("a", mergedT), ("b", custT)], "a")
    ∧ lookupReg [("a", mergedT), ("b", custT)] "joined" = Option.none
    ∧ mergeStep.output = some "joined" :=
  ⟨rfl, rfl, rfl⟩

/-- C1 (amended): a successful merge step binds the merged result under
the step's source name only; every other name — the declared output name
included — keeps exactly the binding it had before the step.  (The output
name is used only in the artifact file name; concat steps do bind their
output name.) -/
theorem C1_merge_binds_source_only :
    ∀ (write : String → Table → Except MErr Unit) (d : Registry) (step : JoinStep)
      (d2 : Registry) (fname : String) (res : Table),
    step.type_ = "merge" →
    runStepBody d step 1 = .ok (d2, fname, res) →
    write (artifactName 1 (step.output.getD ("join_step" ++ toString 1))) res = .ok () →
    run_joins write d [step] = .ok (insertReg d step.source res, step.source)
    ∧ ∀ n2, n2 ≠ step.source →
        lookupReg (insertReg d step.source res) n2 = lookupReg d n2 := by
  intro write d step d2 fname res ht hb hw
  obtain ⟨hd2, hf⟩ := runStepBody_merge_inv ht hb
  subst hd2 hf
  exact ⟨run_joins_single hb hw, fun n2 hn => lookupReg_insert_ne hn⟩

/-- C1, witness. -/
theorem C1_merge_binds_source_only_witness :
    run_joins okW reg1 [mergeStep] = .ok (insertReg reg1 "a" mergedT, "a")
    ∧ lookupReg (insertReg reg1 "a" mergedT) "joined" = lookupReg reg1 "joined" := by
  have h := C1_merge_binds_source_only okW reg1 mergeStep
    (insertReg reg1 "a" mergedT) "a" mergedT rfl rfl rfl
  exact ⟨h.1, h.2 "joined" (by decide)⟩

/-- C2, counterexample: with a writer that can write, the two-step run
completes; with a writer whose artifact writes fail, the very same run
aborts with the write error instead of proceeding to the next step — so a
per-step artifact-write failure is fatal, not merely logged. -/
theorem C2_counterexample :
    run_joins okW reg1 [mergeStep, concatStep]
      = .ok ([("a", mergedT), ("b", custT), ("copy", custT)], "copy")
    ∧ run_joins diskFailW reg1 [mergeStep, concatStep] = .error (.ioError "disk full") :=
  ⟨rfl, rfl⟩

/-- C2 (amended): a failure while writing a step's artifact file is logged
and re-raised by the shared `except` block: it aborts the whole run with
that error; no later step executes and no (registry, name) pair is
returned. -/
theorem C2_artifact_write_failure_fatal :
    ∀ (write : String → Table → Except MErr Unit) (d : Registry) (step : JoinStep)
      (rest : List JoinStep) (d2 : Registry) (fname : String) (res : Table) (e : MErr),
    runStepBody d step 1 = .ok (d2, fname, res) →
    write (artifactName 1 (step.output.getD ("join_step" ++ toString 1))) res = .error e →
    run_joins write d (step :: rest) = .error e :=
  fun _ _ _ _ _ _ _ _ hb hw => run_joins_write_fails hb hw

/-- C2, witness. -/
theorem C2_artifact_write_failure_fatal_witness :
    run_joins diskFailW reg1 [mergeStep] = .error (.ioError "disk full") :=
  C2_artifact_write_failure_fatal diskFailW reg1 mergeStep []
    [("a", mergedT), ("b", custT)] "a" mergedT (.ioError "disk full") rfl rfl

/-- C3, counterexample: the step name `"normalize_string"` is not one of
the five supported operations, yet the dispatcher resolves it through
`getattr` and executes it without any error (the helper returns its
argument and the table is untouched), contradicting the claim that every
non-supported name signals an `UnknownOperation` error. -/
theorem C3_counterexample :
    run_transformations id dispatchTable [[("normalize_string", .str "x")]] = .ok dispatchTable
    ∧ "normalize_string" ∉ ["select_columns", "filter_rows", "drop_duplicates",
        "standardize_id_columns", "add_group_order"] :=
  ⟨rfl, by decide⟩

/-- C3 (amended): a (normalized) step name that resolves to no attribute
of the engine raises an `AttributeError` naming the offending operation —
but not its index — before anything executes; a name that resolves to a
non-operation helper such as `normalize_string` is dispatched and executed
without an unknown-operation error. -/
theorem C3_unknown_attribute_error :
    (∀ (f : String → String) (name : String) (params : PyVal)
       (more : List (String × PyVal)) (rest : List (List (String × PyVal))) (t : Table),
      getattr_method (f name) = Option.none →
      run_transformations f t (((name, params) :: more) :: rest)
        = .error (.attributeError (f name)))
    ∧ (∀ (f : String → String) (t : Table) (v : String),
        f "normalize_string" = "normalize_string" →
        run_transformations f t [[("normalize_string", .str v)]] = .ok t) := by
  constructor
  · intro f name params more rest t h
    rw [run_transformations, runItems, h]
  · intro f t v hf
    rw [run_transformations, runItems, hf]
    rfl

/-- C3, witness. -/
theorem C3_unknown_attribute_error_witness :
    run_transformations id dispatchTable [[("foo", .str "x")]]
      = .error (.attributeError "foo")
    ∧ run_transformations id dispatchTable [[("normalize_string", .str "y")]]
      = .ok dispatchTable :=
  ⟨C3_unknown_attribute_error.1 id "foo" (.str "x") [] [] dispatchTable rfl,
   C3_unknown_attribute_error.2 id dispatchTable "y" rfl⟩

/-- C4, counterexample: on the specification's own example input,
`add_group_order(["g"])` sorts only by `g` — never by `v` — so the two
`g=1` rows keep their input order and the result differs from the output
the claim promises. -/
theorem C4_counterexample :
    add_group_order gTable ["g"] "order" = .ok gActual
    ∧ gActual ≠ gClaimed
    ∧ add_group_order gTable ["g"] "order" ≠ .ok gClaimed :=
  ⟨rfl, by decide, by decide⟩

/-- C4 (amended): for every table, non-empty list of existing group
columns and fresh order column, each distinct group key receives the order
values `1..k` in post-sort relative order (`k` being that key's row
count); but on the example input the rows are sorted by the group columns
only, so the result is `(g=1,v=30,order=1),(g=1,v=20,order=2),
(g=2,v=5,order=1)`. -/
theorem C4_group_order_one_to_k :
    (∀ (t : Table) (gcols : List String) (ord : String) (t2 : Table),
      add_group_order t gcols ord = .ok t2 →
      colIdx t.cols ord = Option.none →
      (∀ r ∈ t.rows, r.length = t.cols.length) →
      ∀ K : List Value,
        ((t2.rows.filter (fun r => dupKey t.cols gcols r == K)).map (fun r => r.getLast?))
          = (List.range' 1 ((t2.rows.filter
              (fun r => dupKey t.cols gcols r == K)).length)).map
              (fun n => some (Value.i (Int.ofNat n))))
    ∧ add_group_order gTable ["g"] "order" = .ok gActual := by
  constructor
  · intro t gcols ord t2 h hord halign K
    obtain ⟨hmem, hcols, hrows⟩ := add_group_order_inv h hord
    have hext : ∀ r ∈ sortRowsBy (fun r => dupKey t.cols gcols r) t.rows,
        ∀ v : Value, dupKey t.cols gcols (r ++ [v]) = dupKey t.cols gcols r :=
      fun r hr v => dupKey_append hmem (halign r (mem_sortRowsBy hr))
    have hmain := cumOrders_filter (fun r => dupKey t.cols gcols r)
      (fun r => dupKey t.cols gcols r)
      (sortRowsBy (fun r => dupKey t.cols gcols r) t.rows) [] K hext
    simp only [List.count_nil, Nat.zero_add] at hmain
    rw [hrows]
    have hlen := congrArg List.length hmain
    rw [List.length_map, List.length_map, List.length_range'] at hlen
    rw [hmain, ← hlen]
  · rfl

/-- C4, witness. -/
theorem C4_group_order_one_to_k_witness :
    ((gActual.rows.filter (fun r => dupKey gTable.cols ["g"] r == [Value.i 1])).map
        (fun r => r.getLast?))
      = (List.range' 1 ((gActual.rows.filter
          (fun r => dupKey gTable.cols ["g"] r == [Value.i 1])).length)).map
          (fun n => some (Value.i (Int.ofNat n))) :=
  C4_group_order_one_to_k.1 gTable ["g"] "order" gActual rfl rfl (by decide) [Value.i 1]

/-- C5, counterexample: a cell containing `+`, which is neither a digit
nor a dash, is accepted (`"+0-7"` standardizes to `"7"`), and the error
for a non-numeric cell names the dash-stripped remainder `"ab"`, not the
original cell content `"a-b"`. -/
theorem C5_counterexample :
    _standardize_id "+0-7" = .ok "7"
    ∧ standardize_id_columns ⟨["id"], [[.s "+0-7"]]⟩ ["id"] = .ok ⟨["id"], [[.s "7"]]⟩
    ∧ _standardize_id "a-b" = .error (.invalidId "ab")
    ∧ "ab" ≠ "a-b" :=
  ⟨rfl, rfl, rfl, by decide⟩

/-- C5 (amended): a processed cell must, after stripping dashes, parse as
a Python integer literal (which also tolerates surrounding whitespace, one
leading sign, and underscores between digits); a cell whose remainder does
not parse makes the operation fail with `InvalidIdValue` naming the
dash-stripped remainder rather than the raw cell. -/
theorem C5_standardize_parse_contract :
    (∀ s : String, pythonInt (stripDashes s) = none →
      _standardize_id s = .error (.invalidId (stripDashes s)))
    ∧ (∀ (t t2 : Table) (c : String), standardize_id_columns t [c] = .ok t2 →
        ∀ r ∈ t.rows, pythonInt (stripDashes (cellToStr (getCell t.cols r c))) ≠ none)
    ∧ (∀ (t : Table) (c v : String),
        standardize_id_columns t [c] = .error (.invalidId v) →
        ∃ r ∈ t.rows, v = stripDashes (cellToStr (getCell t.cols r c)) ∧
          pythonInt v = none) := by
  refine ⟨?_, ?_, ?_⟩
  · intro s hn
    rw [_standardize_id_eq, hn]
  · intro t t2 c h
    exact (standardize_single_ok h).2
  · intro t c v h
    exact standardize_single_err h

/-- C5, witness. -/
theorem C5_standardize_parse_contract_witness :
    _standardize_id "a-b" = .error (.invalidId (stripDashes "a-b"))
    ∧ ∃ r ∈ (⟨["id"], [[Value.s "x-1y"]]⟩ : Table).rows,
        "x1y" = stripDashes (cellToStr (getCell ["id"] r "id")) ∧ pythonInt "x1y" = none :=
  ⟨C5_standardize_parse_contract.1 "a-b" rfl,
   C5_standardize_parse_contract.2.2 ⟨["id"], [[Value.s "x-1y"]]⟩ "id" "x1y" rfl⟩

/-- C6, counterexample: the normalization pass leaves a string sitting in
a list inside a named-argument mapping untouched, even though its NFC form
differs; consequently the same canonical value spelled decomposed in the
configuration and composed in the data produces a different run result
than the composed spelling — the claim's "identical behaviour" fails. -/
theorem C6_counterexample :
    normalizeParams nfcModel (.dict [("values", .list [.str "e\u0301"])])
      = .dict [("values", .list [.str "e\u0301"])]
    ∧ nfcModel "e\u0301" ≠ "e\u0301"
    ∧ run_transformations nfcModel decTable
        [[("filter_rows", .dict [("column", .str "c"), ("operator", .str "is_in"),
            ("values", .list [.str "e\u0301"])])]] = .ok ⟨["c"], []⟩
    ∧ run_transformations nfcModel decTable
        [[("filter_rows", .dict [("column", .str "c"), ("operator", .str "is_in"),
            ("values", .list [.str "\u00e9"])])]] = .ok decTable :=
  ⟨rfl, by decide, rfl, rfl⟩

/-- C6 (amended): the operation name, bare scalar string parameters,
string elements of a top-level list parameter and scalar string values of
a mapping are normalized before dispatch, and the engine's behaviour
depends only on those normalized forms; but mapping keys and strings
nested inside lists within mappings pass through unchanged. -/
theorem C6_normalization_coverage :
    (∀ (f : String → String) (l : List PyVal),
      normalizeParams f (.list l) = .list (l.map (normalize_string f)))
    ∧ (∀ (f : String → String) (m : List (String × PyVal)),
      normalizeParams f (.dict m) = .dict (m.map (fun kv => (kv.1, normalize_string f kv.2))))
    ∧ (∀ (f : String → String) (s : String), normalize_string f (.str s) = .str (f s))
    ∧ (∀ (f : String → String) (l : List PyVal), normalize_string f (.list l) = .list l)
    ∧ (∀ (f : String → String) (m : List (String × PyVal)),
        normalize_string f (.dict m) = .dict m)
    ∧ (∀ (f : String → String) (n₁ n₂ : String) (p₁ p₂ : PyVal) (t : Table),
        f n₁ = f n₂ → normalizeParams f p₁ = normalizeParams f p₂ →
        run_transformations f t [[(n₁, p₁)]] = run_transformations f t [[(n₂, p₂)]]) := by
  refine ⟨fun f l => rfl, fun f m => rfl, fun f s => rfl, fun f l => rfl, fun f m => rfl, ?_⟩
  intro f n₁ n₂ p₁ p₂ t h1 h2
  rw [run_transformations, run_transformations, runItems, runItems, h1, h2]

/-- C6, witness: the decomposed and the composed spelling of the same
scalar parameter behave identically once normalized. -/
theorem C6_normalization_coverage_witness :
    run_transformations nfcModel decTable [[("foo", .str "e\u0301")]]
      = run_transformations nfcModel decTable [[("foo", .str "\u00e9")]] :=
  C6_normalization_coverage.2.2.2.2.2 nfcModel "foo" "foo" (.str "e\u0301") (.str "\u00e9")
    decTable rfl rfl

/-- C7: `standardize_id_columns` is idempotent on every table where it
succeeds, and the specification's two examples evaluate as stated. -/
theorem C7_standardize_idempotent :
    (∀ (t : Table) (cols : List String) (t2 : Table),
      standardize_id_columns t cols = .ok t2 → standardize_id_columns t2 cols = .ok t2)
    ∧ standardize_id_columns idTable ["id"] = .ok idStd
    ∧ _standardize_id "0123456-8" = .ok "1234568"
    ∧ _standardize_id "012345678" = .ok "12345678" :=
  ⟨fun _ _ _ h => standardize_idem h, rfl, rfl, rfl⟩

/-- C7, witness. -/
theorem C7_standardize_idempotent_witness :
    standardize_id_columns idStd ["id"] = .ok idStd :=
  C7_standardize_idempotent.1 idTable ["id"] idStd rfl

/-- C8: a merge step whose source or join_with name is absent from the
registry, and a concat step referencing an absent name, each abort the
whole run with the resolution error — no later step executes and no
result pair is returned. -/
theorem C8_unresolved_reference_fatal :
    (∀ (write : String → Table → Except MErr Unit) (d : Registry) (step : JoinStep)
       (rest : List JoinStep) (k0 k1 : List (String × String)),
      step.type_ = "merge" →
      step.join_on.get? 0 = some k0 →
      step.join_on.get? 1 = some k1 →
      (lookupReg d step.source = Option.none ∨ lookupReg d step.join_with = Option.none) →
      run_joins write d (step :: rest) = .error (.requiredNotFound step.source step.join_with))
    ∧ (∀ (write : String → Table → Except MErr Unit) (d : Registry) (step : JoinStep)
        (rest : List JoinStep) (pre post : List String) (name : String),
      step.type_ = "concat" →
      step.dataframes = pre ++ name :: post →
      (∀ p ∈ pre, lookupReg d p ≠ Option.none) →
      lookupReg d name = Option.none →
      run_joins write d (step :: rest) = .error (.dfNotFound name)) := by
  constructor
  · intro write d step rest k0 k1 ht h0 h1 hmiss
    exact run_joins_step_fails (runStepBody_merge_unresolved ht h0 h1 hmiss)
  · intro write d step rest pre post name ht hd hpre hname
    exact run_joins_step_fails (runStepBody_concat_unresolved ht hd hpre hname)

/-- C8, witness. -/
theorem C8_unresolved_reference_fatal_witness :
    run_joins okW reg1 [mergeStepMissing] = .error (.requiredNotFound "zzz" "b")
    ∧ run_joins okW reg1 [concatStepMissing] = .error (.dfNotFound "nope") :=
  ⟨C8_unresolved_reference_fatal.1 okW reg1 mergeStepMissing [] [("zzz", "id")]
      [("b", "id2")] rfl rfl rfl (Or.inl rfl),
   C8_unresolved_reference_fatal.2 okW reg1 concatStepMissing [] ["a"] [] "nope"
      rfl rfl (by decide) rfl⟩

/-- C9: running the transformation engine with an empty step list returns
the table unchanged. -/
theorem C9_empty_transformations_identity :
    ∀ (f : String → String) (t : Table), run_transformations f t [] = .ok t :=
  fun _ _ => rfl

/-- C10: running the join executor with an empty step list raises the
unbound-local error for `final_left_file` instead of returning a
(registry, name) pair. -/
theorem C10_empty_join_config_error :
    ∀ (write : String → Table → Except MErr Unit) (d : Registry),
    run_joins write d [] = .error .unboundLocalFinalLeftFile :=
  fun _ _ => rfl
